import Mathlib

/-!
Shallow embedding of `src/task_manager.py` (a JSON-file-backed task CRUD
tool) and verification of its specification claims.

Modelling conventions:
* Python `dict` (insertion-ordered, unique keys) is an association list;
  assignment updates the first occurrence in place, `del` removes it.
* Python strings are Lean `String`; `str.lower()` is `pyLower` (ASCII
  case mapping via `Char.toLower`, which is what matters for this tool);
  `str.strip()` is `pyStrip` (drops leading/trailing whitespace).
* JSON values are the inductive `JsonVal`; the filesystem maps a path to
  a `FileState` (absent, syntactically invalid, or a parsed JSON value),
  abstracting over the text serialisation, which `json.dump`/`json.load`
  round-trip faithfully.
* A raised Python exception is a `PyErr` value; printing is modelled by
  returning the list of printed lines.
-/

namespace TaskManager

/-- Python `str.lower()` on one character: the ASCII case mapping of Python. -/
def pyLowerChar (c : Char) : Char := c.toLower

/-- Python `str.lower()`: lower-case every character. -/
def pyLower (s : String) : String := String.mk (s.data.map pyLowerChar)

/-- Python `str.strip()`: drop leading and trailing whitespace. -/
def pyStrip (s : String) : String :=
  String.mk (((s.data.dropWhile Char.isWhitespace).reverse.dropWhile
    Char.isWhitespace).reverse)

/-- A Python runtime value, as far as `validate_input` can distinguish
its type. Only the string payload matters; the other constructors stand
for the non-string types an arbitrary caller could pass. -/
inductive PyVal where
  | str (s : String)
  | int (n : Int)
  | boolean (b : Bool)
  | noneVal
deriving DecidableEq, Repr

/-- Function `validate_input` (task_manager.py lines 4-17):
`type(input) == str and bool(input.strip())`. -/
def validate_input : PyVal → Bool
  | .str s => !(pyStrip s == "")
  | _ => false

/-- Function `validate_input` as the mutators call it, on a value already known
to be a string (the result of `input()`). -/
def validate_str (s : String) : Bool := validate_input (.str s)

/-- A parsed JSON value. -/
inductive JsonVal where
  | null
  | jbool (b : Bool)
  | num (n : Int)
  | jstr (s : String)
  | arr (xs : List JsonVal)
  | obj (kvs : List (String × JsonVal))

/-- A Python dict with string keys: an insertion-ordered association
list whose keys are unique in any state the program actually builds. -/
abbrev PyDict (α : Type) := List (String × α)

/-- Dict lookup `d[k]` / `k in d` support: first matching entry. -/
def dlookup {α : Type} : PyDict α → String → Option α
  | [], _ => none
  | (k', v) :: rest, k => if k' = k then some v else dlookup rest k

/-- Membership `k in d`. -/
def hasKey {α : Type} (d : PyDict α) (k : String) : Bool :=
  (dlookup d k).isSome

/-- Dict assignment `d[k] = v` (also `d.update({k: v})`): update the
first occurrence in place, else append. -/
def dinsert {α : Type} : PyDict α → String → α → PyDict α
  | [], k, v => [(k, v)]
  | (k', v') :: rest, k, v =>
    if k' = k then (k', v) :: rest else (k', v') :: dinsert rest k v

/-- Deletion `del d[k]`: remove the first occurrence. -/
def dremove {α : Type} : PyDict α → String → PyDict α
  | [], _ => []
  | (k', v') :: rest, k =>
    if k' = k then rest else (k', v') :: dremove rest k

/-- The keys of a dict, in order. -/
def keysOf {α : Type} (d : PyDict α) : List String := d.map Prod.fst

/-- What the backing file at a path holds. -/
inductive FileState where
  | invalid
  | json (v : JsonVal)

/-- The filesystem: paths mapped to file states; a missing entry is a
missing file. -/
abbrev FS := PyDict FileState

/-- A raised Python exception, restricted to the kinds this program can
produce. -/
inductive PyErr where
  | fileNotFound
  | jsonDecodeError
  | typeError
  | valueError
  | attributeError
deriving DecidableEq, Repr

/-- Parsing `json.load`: a JSON text object becomes a dict; duplicate raw keys
are resolved last-write-wins by repeated assignment. -/
def jsonDictOf (kvs : List (String × JsonVal)) : PyDict JsonVal :=
  kvs.foldl (fun acc kv => dinsert acc kv.1 kv.2) []

/-- The comprehension in `load_tasks`:
`{task.lower(): tasks[task] for task in tasks}`. -/
def lowerDict (d : PyDict JsonVal) : PyDict JsonVal :=
  d.foldl (fun acc kv => dinsert acc (pyLower kv.1) kv.2) []

/-- Running `{task.lower(): tasks[task] for task in tasks}` on an
arbitrary parsed JSON value `tasks`, as Python evaluates it: a dict
iterates its keys; a list or a string iterates its elements, where the
key expression `task.lower()` is evaluated first (AttributeError on a
non-string element) and then the subscript `tasks[task]` fails with
TypeError for a string index; an empty list or string yields the empty
dict; any other value is not iterable (TypeError). -/
def comprehend : JsonVal → Except PyErr (PyDict JsonVal)
  | .obj kvs => .ok (lowerDict (jsonDictOf kvs))
  | .arr [] => .ok []
  | .arr (x :: _) =>
    match x with
    | .jstr _ => .error .typeError
    | _ => .error .attributeError
  | .jstr s => if s.data.isEmpty then .ok [] else .error .typeError
  | _ => .error .typeError

/-- Function `load_tasks` (task_manager.py lines 20-35): open the file
(FileNotFoundError when absent), `json.load` it (JSONDecodeError when
not valid JSON), then lower-case the keys via the comprehension. -/
def load_tasks (fs : FS) (path : String) : Except PyErr (PyDict JsonVal) :=
  match dlookup fs path with
  | none => .error .fileNotFound
  | some .invalid => .error .jsonDecodeError
  | some (.json v) => comprehend v

/-- Function `dump_tasks` (task_manager.py lines 38-47): serialise the dict as a
JSON object and overwrite the file in full. -/
def dump_tasks (fs : FS) (path : String) (tasks : PyDict JsonVal) : FS :=
  dinsert fs path (.json (.obj tasks))

/-- A boolean-valued collection viewed as a Python dict of JSON
booleans (what `json.load` produces for a conforming file). -/
def ofBools (ts : List (String × Bool)) : PyDict JsonVal :=
  ts.map (fun kv => (kv.1, .jbool kv.2))

/-- Python truthiness of a JSON-loaded value (`if tasks[task]:`). -/
def pyTruthy : JsonVal → Bool
  | .null => false
  | .jbool b => b
  | .num n => !(n == 0)
  | .jstr s => !(s == "")
  | .arr xs => !xs.isEmpty
  | .obj kvs => !kvs.isEmpty

/-- Function `list_tasks` (task_manager.py lines 50-65) as the list of printed
lines. -/
def list_tasks (tasks : PyDict JsonVal) : List String :=
  if tasks.isEmpty then ["No tasks added."]
  else tasks.map (fun kv =>
    if pyTruthy kv.2 then "- " ++ kv.1 ++ " ✅" else "- " ++ kv.1 ++ " ❌")

/-- The outcome of one mutator call: the dict (mutated in place), the
filesystem, the exception it raised if any, and the lines it printed. -/
structure MutOut where
  tasks : PyDict JsonVal
  fs : FS
  err : Option PyErr
  msgs : List String

/-- Function `add_task` (task_manager.py lines 68-90): lower-case the name; when
`validate_input(name) and (name.lower() not in tasks)` insert it mapped
to `False` and persist, else print "Task already exists." and return
without touching anything. -/
def add_task (fs : FS) (path : String) (tasks : PyDict JsonVal)
    (name : String) : MutOut :=
  let n := pyLower name
  if validate_str n && !(hasKey tasks (pyLower n)) then
    let tasks' := dinsert tasks n (.jbool false)
    { tasks := tasks', fs := dump_tasks fs path tasks', err := none,
      msgs := ["Task was added."] }
  else
    { tasks := tasks, fs := fs, err := none,
      msgs := ["Task already exists."] }

/-- Function `remove_task` (task_manager.py lines 93-122): TypeError on an
invalid name before any normalisation; then lower-case, delete when
present, and detect the no-op case by comparing the length before and
after (ValueError); on an actual deletion persist and report. -/
def remove_task (fs : FS) (path : String) (tasks : PyDict JsonVal)
    (name : String) : MutOut :=
  if !(validate_str name) then
    { tasks := tasks, fs := fs, err := some .typeError, msgs := [] }
  else
    let prev_length := tasks.length
    let n := pyLower name
    let tasks' := if hasKey tasks n then dremove tasks n else tasks
    if prev_length = tasks'.length then
      { tasks := tasks', fs := fs, err := some .valueError, msgs := [] }
    else
      { tasks := tasks', fs := dump_tasks fs path tasks', err := none,
        msgs := ["Task removed."] }

/-- Function `change_complete` (task_manager.py lines 125-159): TypeError on an
invalid name; then lower-case, and when present store
`not tasks[name]` (a Python boolean) and persist, reporting completed
exactly when the new value is truthy; when absent, ValueError. -/
def change_complete (fs : FS) (path : String) (tasks : PyDict JsonVal)
    (name : String) : MutOut :=
  if !(validate_str name) then
    { tasks := tasks, fs := fs, err := some .typeError, msgs := [] }
  else
    let n := pyLower name
    match dlookup tasks n with
    | none => { tasks := tasks, fs := fs, err := some .valueError, msgs := [] }
    | some v =>
      let newv : JsonVal := .jbool (!pyTruthy v)
      let tasks' := dinsert tasks n newv
      { tasks := tasks', fs := dump_tasks fs path tasks', err := none,
        msgs := [if pyTruthy newv then "Task changed to completed."
                 else "Task changed to uncompleted."] }

/-- The `except` handlers of `run` (task_manager.py lines 210-233):
FileNotFoundError and JSONDecodeError reset the file to the empty
object; TypeError, ValueError and the catch-all only print. Each
restarts the loop. -/
def recover (e : PyErr) (fs : FS) (path : String) : FS × List String :=
  match e with
  | .fileNotFound =>
    (dump_tasks fs path [], ["New tasks file was created. Try again."])
  | .jsonDecodeError =>
    (dump_tasks fs path [],
      ["There was something wrong with the tasks file. Tasks were reset. Try again."])
  | .typeError => (fs, ["Task name must be a unique, non-empty string."])
  | .valueError => (fs, ["Task not in tasks list."])
  | .attributeError => (fs, ["Something went wrong. Try again."])

/-- The observable outcome of one cycle of the interactive loop. -/
inductive StepRes where
  | more (fs : FS) (rest : List String) (msgs : List String)
  | done (fs : FS) (rest : List String) (msgs : List String)
  | needInput

/-- A mutator call as the loop sees it: a raised exception is caught by
the `except` handlers and the loop restarts either way. -/
def mutStep (r : MutOut) (path : String) (rest : List String) : StepRes :=
  match r.err with
  | none => .more r.fs rest r.msgs
  | some e =>
    let rm := recover e r.fs path
    .more rm.1 rest (r.msgs ++ rm.2)

/-- One cycle of `run` (task_manager.py lines 162-233): reload the
collection (a load failure is caught before any input is read), read
the menu letter, lower-case it and dispatch; `r` and `e` read a
confirmation whose lower-casing must be `"y"`. `done` is the `break`
out of the loop; `needInput` marks an exhausted input stream (the real
program would block on `input()`). -/
def step (path : String) (fs : FS) (inputs : List String) : StepRes :=
  match load_tasks fs path with
  | .error e =>
    let rm := recover e fs path
    .more rm.1 inputs rm.2
  | .ok tasks =>
    match inputs with
    | [] => .needInput
    | action :: rest =>
      let a := pyLower action
      if a = "l" then .more fs rest ("CURRENT TASKS:" :: list_tasks tasks)
      else if a = "c" then
        match rest with
        | [] => .needInput
        | name :: r2 => mutStep (change_complete fs path tasks name) path r2
      else if a = "a" then
        match rest with
        | [] => .needInput
        | name :: r2 => mutStep (add_task fs path tasks name) path r2
      else if a = "r" then
        match rest with
        | name :: sure :: r3 =>
          if pyLower sure = "y" then
            mutStep (remove_task fs path tasks name) path r3
          else .more fs r3 []
        | _ => .needInput
      else if a = "e" then
        match rest with
        | conf :: r2 =>
          if pyLower conf = "y" then .done fs r2 [] else .more fs r2 []
        | _ => .needInput
      else .more fs rest ["Wrong letter provided."]

/-- The key invariant the data model promises for collections: every
key is already lower-cased, and keys are pairwise distinct. -/
def KeysGood (d : PyDict JsonVal) : Prop :=
  (∀ k ∈ keysOf d, pyLower k = k) ∧ (keysOf d).Nodup

/-! ### Character and string lemmas -/

theorem not_whitespace_of_65_le (c : Char) (h : 65 ≤ c.toNat) :
    c.isWhitespace = false := by
  simp only [Char.isWhitespace, Bool.or_eq_false_iff, decide_eq_false_iff_not]
  refine ⟨⟨⟨?_, ?_⟩, ?_⟩, ?_⟩ <;> rintro rfl <;> exact absurd h (by decide)

theorem pyLowerChar_isWhitespace (c : Char) :
    (pyLowerChar c).isWhitespace = c.isWhitespace := by
  unfold pyLowerChar Char.toLower
  by_cases h : Char.toNat c ≥ 65 ∧ Char.toNat c ≤ 90
  · rw [if_pos h, not_whitespace_of_65_le c h.1]
    obtain ⟨h1, h2⟩ := h
    generalize hn : c.toNat = n at h1 h2
    interval_cases n <;> decide
  · rw [if_neg h]

theorem pyLowerChar_idem (c : Char) :
    pyLowerChar (pyLowerChar c) = pyLowerChar c := by
  unfold pyLowerChar
  by_cases h : Char.toNat c ≥ 65 ∧ Char.toNat c ≤ 90
  · have e1 : Char.toLower c = Char.ofNat (c.toNat + 32) := by
      unfold Char.toLower
      rw [if_pos h]
    rw [e1]
    obtain ⟨h1, h2⟩ := h
    generalize hn : c.toNat = n at h1 h2
    interval_cases n <;> decide
  · have e1 : Char.toLower c = c := by
      unfold Char.toLower
      rw [if_neg h]
    rw [e1, e1]

theorem data_pyLower (s : String) :
    (pyLower s).data = s.data.map pyLowerChar := rfl

theorem pyLower_idem (s : String) : pyLower (pyLower s) = pyLower s := by
  apply String.ext
  rw [data_pyLower, data_pyLower, List.map_map]
  exact List.map_congr_left (fun c _ => pyLowerChar_idem c)

theorem pyStrip_eq_empty_iff (s : String) :
    pyStrip s = "" ↔ ∀ c ∈ s.data, c.isWhitespace := by
  unfold pyStrip
  rw [String.ext_iff]
  show _ = ([] : List Char) ↔ _
  rw [List.reverse_eq_nil_iff, List.dropWhile_eq_nil_iff]
  constructor
  · intro h c hc
    by_cases hws : (s.data.dropWhile Char.isWhitespace) = []
    · rw [List.dropWhile_eq_nil_iff] at hws
      exact hws c hc
    · have hsplit : s.data =
          s.data.takeWhile Char.isWhitespace ++ s.data.dropWhile Char.isWhitespace :=
        (List.takeWhile_append_dropWhile Char.isWhitespace s.data).symm
      rw [hsplit] at hc
      rcases List.mem_append.mp hc with h1 | h2
      · exact List.mem_takeWhile_imp h1
      · exact h c (List.mem_reverse.mpr h2)
  · intro h c hc
    exact h c ((List.dropWhile_sublist Char.isWhitespace).subset (List.mem_reverse.mp hc))

theorem validate_str_iff (s : String) :
    validate_str s = true ↔ ∃ c ∈ s.data, c.isWhitespace = false := by
  unfold validate_str validate_input
  rw [Bool.not_eq_true', beq_eq_false_iff_ne, ne_eq]
  rw [pyStrip_eq_empty_iff]
  push_neg
  constructor
  · rintro ⟨c, hc, hw⟩
    exact ⟨c, hc, by simpa using hw⟩
  · rintro ⟨c, hc, hw⟩
    exact ⟨c, hc, by simp [hw]⟩

theorem validate_str_pyLower (s : String) :
    validate_str (pyLower s) = validate_str s := by
  rw [Bool.eq_iff_iff, validate_str_iff, validate_str_iff, data_pyLower]
  constructor
  · rintro ⟨c, hc, hw⟩
    obtain ⟨a, ha, rfl⟩ := List.mem_map.mp hc
    exact ⟨a, ha, by rw [← pyLowerChar_isWhitespace]; exact hw⟩
  · rintro ⟨c, hc, hw⟩
    exact ⟨pyLowerChar c, List.mem_map.mpr ⟨c, hc, rfl⟩,
      by rw [pyLowerChar_isWhitespace]; exact hw⟩

/-! ### Dict lemmas -/

theorem dlookup_dinsert_self {α : Type} (d : PyDict α) (k : String) (v : α) :
    dlookup (dinsert d k v) k = some v := by
  induction d with
  | nil => simp [dinsert, dlookup]
  | cons kv rest ih =>
    obtain ⟨k', v'⟩ := kv
    by_cases h : k' = k
    · subst h
      simp [dinsert, dlookup]
    · simp [dinsert, dlookup, h, ih]

theorem dinsert_of_not_mem {α : Type} (d : PyDict α) (k : String) (v : α)
    (h : dlookup d k = none) : dinsert d k v = d ++ [(k, v)] := by
  induction d with
  | nil => simp [dinsert]
  | cons kv rest ih =>
    obtain ⟨k', v'⟩ := kv
    by_cases h0 : k' = k
    · subst h0
      simp [dlookup] at h
    · simp only [dlookup, if_neg h0] at h
      simp [dinsert, h0, ih h]

theorem dlookup_append_right {α : Type} (d₁ d₂ : PyDict α) (k : String)
    (h : dlookup d₁ k = none) :
    dlookup (d₁ ++ d₂) k = dlookup d₂ k := by
  induction d₁ with
  | nil => simp
  | cons kv rest ih =>
    obtain ⟨k', v'⟩ := kv
    by_cases h0 : k' = k
    · subst h0
      simp [dlookup] at h
    · simp only [dlookup, if_neg h0] at h
      simp [dlookup, h0, ih h]

theorem dremove_append_singleton {α : Type} (d : PyDict α) (k : String)
    (v : α) (h : dlookup d k = none) : dremove (d ++ [(k, v)]) k = d := by
  induction d with
  | nil => simp [dremove]
  | cons kv rest ih =>
    obtain ⟨k', v'⟩ := kv
    by_cases h0 : k' = k
    · subst h0
      simp [dlookup] at h
    · simp only [dlookup, if_neg h0] at h
      simp [dremove, h0, ih h]

theorem dremove_length {α : Type} (d : PyDict α) (k : String) (v : α)
    (h : dlookup d k = some v) : (dremove d k).length + 1 = d.length := by
  induction d with
  | nil => simp [dlookup] at h
  | cons kv rest ih =>
    obtain ⟨k', v'⟩ := kv
    by_cases h0 : k' = k
    · subst h0
      simp [dremove]
    · simp only [dlookup, if_neg h0] at h
      simp [dremove, h0, ← ih h]

theorem dremove_sublist {α : Type} (d : PyDict α) (k : String) :
    (dremove d k).Sublist d := by
  induction d with
  | nil => simp [dremove]
  | cons kv rest ih =>
    obtain ⟨k', v'⟩ := kv
    by_cases h0 : k' = k
    · simp only [dremove, if_pos h0]
      exact List.sublist_cons_self _ _
    · simp only [dremove, if_neg h0]
      exact List.Sublist.cons₂ _ ih

theorem dinsert_dinsert {α : Type} (d : PyDict α) (k : String) (v w : α) :
    dinsert (dinsert d k v) k w = dinsert d k w := by
  induction d with
  | nil => simp [dinsert]
  | cons kv rest ih =>
    obtain ⟨k', v'⟩ := kv
    by_cases h0 : k' = k
    · simp [dinsert, h0]
    · simp [dinsert, h0, ih]

theorem dinsert_lookup_self {α : Type} (d : PyDict α) (k : String) (v : α)
    (h : dlookup d k = some v) : dinsert d k v = d := by
  induction d with
  | nil => simp [dlookup] at h
  | cons kv rest ih =>
    obtain ⟨k', v'⟩ := kv
    by_cases h0 : k' = k
    · subst h0
      simp only [dlookup, if_pos rfl, if_true, Option.some_inj] at h
      simp [dinsert, h]
    · simp only [dlookup, if_neg h0] at h
      simp [dinsert, h0, ih h]

theorem keysOf_dinsert_mem {α : Type} (d : PyDict α) (k : String) (v : α)
    (h : hasKey d k = true) : keysOf (dinsert d k v) = keysOf d := by
  induction d with
  | nil => simp [hasKey, dlookup] at h
  | cons kv rest ih =>
    obtain ⟨k', v'⟩ := kv
    by_cases h0 : k' = k
    · simp [dinsert, h0, keysOf]
    · simp only [hasKey, dlookup, if_neg h0] at h
      simp only [dinsert, if_neg h0]
      simp only [keysOf, List.map_cons, List.cons.injEq, true_and]
      exact ih h

theorem keysOf_dinsert_not_mem {α : Type} (d : PyDict α) (k : String) (v : α)
    (h : hasKey d k = false) : keysOf (dinsert d k v) = keysOf d ++ [k] := by
  induction d with
  | nil => simp [dinsert, keysOf]
  | cons kv rest ih =>
    obtain ⟨k', v'⟩ := kv
    by_cases h0 : k' = k
    · subst h0
      simp [hasKey, dlookup] at h
    · simp only [hasKey, dlookup, if_neg h0] at h
      simp only [dinsert, if_neg h0]
      simp only [keysOf, List.map_cons, List.cons_append, List.cons.injEq, true_and]
      exact ih h

theorem hasKey_iff_mem_keysOf {α : Type} (d : PyDict α) (k : String) :
    hasKey d k = true ↔ k ∈ keysOf d := by
  induction d with
  | nil => simp [hasKey, dlookup, keysOf]
  | cons kv rest ih =>
    obtain ⟨k', v'⟩ := kv
    by_cases h0 : k' = k
    · subst h0
      simp [hasKey, dlookup, keysOf]
    · simp only [hasKey, dlookup, if_neg h0, keysOf, List.map_cons, List.mem_cons]
      rw [← keysOf, ← hasKey, ih]
      constructor
      · exact fun hmem => Or.inr hmem
      · rintro (rfl | hmem)
        · exact absurd rfl h0
        · exact hmem

theorem dlookup_dinsert_other {α : Type} (d : PyDict α) (k k' : String)
    (v : α) (h : k' ≠ k) : dlookup (dinsert d k v) k' = dlookup d k' := by
  induction d with
  | nil => simp [dinsert, dlookup, Ne.symm h]
  | cons kv rest ih =>
    obtain ⟨k0, v0⟩ := kv
    by_cases h0 : k0 = k
    · subst h0
      have hne : ¬k0 = k' := fun hh => h hh.symm
      simp [dinsert, dlookup, hne]
    · simp only [dinsert, if_neg h0, dlookup]
      by_cases h1 : k0 = k'
      · simp [h1]
      · simp [h1, ih]

theorem hasKey_false_iff {α : Type} (d : PyDict α) (k : String) :
    hasKey d k = false ↔ dlookup d k = none := by
  rw [hasKey, Bool.eq_false_iff, ne_eq, Option.isSome_iff_exists]
  constructor
  · intro h
    cases hd : dlookup d k with
    | none => rfl
    | some v => exact absurd ⟨v, hd⟩ h
  · rintro h ⟨v, hv⟩
    rw [h] at hv
    exact Option.noConfusion hv

/-! ### Lemmas about the key-transforming insertion folds
(`jsonDictOf` is the fold with the identity key transform, `lowerDict`
the fold with `pyLower`). -/

theorem foldl_dinsert_nodup (f : String → String)
    (l : List (String × JsonVal)) (acc : PyDict JsonVal)
    (h : (keysOf acc).Nodup) :
    (keysOf (l.foldl (fun a kv => dinsert a (f kv.1) kv.2) acc)).Nodup := by
  induction l generalizing acc with
  | nil => exact h
  | cons kv l ih =>
    rw [List.foldl_cons]
    apply ih
    by_cases hm : hasKey acc (f kv.1) = true
    · rw [keysOf_dinsert_mem acc (f kv.1) kv.2 hm]
      exact h
    · rw [keysOf_dinsert_not_mem acc (f kv.1) kv.2 (Bool.not_eq_true _ ▸ hm)]
      rw [List.nodup_append]
      refine ⟨h, List.nodup_singleton _, ?_⟩
      intro a ha hb
      rw [List.mem_singleton] at hb
      subst hb
      rw [Bool.not_eq_true, hasKey_false_iff] at hm
      rw [← hasKey_false_iff, ← Bool.not_eq_true, hasKey_iff_mem_keysOf] at hm
      exact hm ha

theorem foldl_dinsert_keys (P : String → Prop) (f : String → String)
    (l : List (String × JsonVal)) (acc : PyDict JsonVal)
    (hacc : ∀ k ∈ keysOf acc, P k) (hl : ∀ kv ∈ l, P (f kv.1)) :
    ∀ k ∈ keysOf (l.foldl (fun a kv => dinsert a (f kv.1) kv.2) acc), P k := by
  induction l generalizing acc with
  | nil => exact hacc
  | cons kv l ih =>
    rw [List.foldl_cons]
    apply ih
    · intro k hk
      by_cases hm : hasKey acc (f kv.1) = true
      · rw [keysOf_dinsert_mem acc (f kv.1) kv.2 hm] at hk
        exact hacc k hk
      · rw [keysOf_dinsert_not_mem acc (f kv.1) kv.2 (Bool.not_eq_true _ ▸ hm)] at hk
        rcases List.mem_append.mp hk with h1 | h2
        · exact hacc k h1
        · rw [List.mem_singleton] at h2
          subst h2
          exact hl kv (List.mem_cons_self _ _)
    · exact fun kv' hkv' => hl kv' (List.mem_cons_of_mem _ hkv')

theorem foldl_dinsert_eq_append (f : String → String)
    (l : List (String × JsonVal)) (acc : PyDict JsonVal)
    (hnd : (l.map (fun kv => f kv.1)).Nodup)
    (hdisj : ∀ kv ∈ l, dlookup acc (f kv.1) = none) :
    l.foldl (fun a kv => dinsert a (f kv.1) kv.2) acc =
      acc ++ l.map (fun kv => (f kv.1, kv.2)) := by
  induction l generalizing acc with
  | nil => simp
  | cons kv l ih =>
    rw [List.foldl_cons,
      dinsert_of_not_mem acc (f kv.1) kv.2 (hdisj kv (List.mem_cons_self _ _))]
    rw [List.map_cons] at hnd
    have hnd' := List.Nodup.of_cons hnd
    have hhead : f kv.1 ∉ l.map (fun kv' => f kv'.1) :=
      (List.nodup_cons.mp hnd).1
    rw [ih _ hnd' ?_]
    · simp
    · intro kv' hkv'
      rw [dlookup_append_right _ _ _ (hdisj kv' (List.mem_cons_of_mem _ hkv'))]
      have hne : f kv.1 ≠ f kv'.1 := by
        intro he
        exact hhead (he ▸ List.mem_map.mpr ⟨kv', hkv', rfl⟩)
      simp [dlookup, hne]

theorem dlookup_foldl_dinsert (f : String → String)
    (l : List (String × JsonVal)) (acc : PyDict JsonVal) (k : String) :
    dlookup (l.foldl (fun a kv => dinsert a (f kv.1) kv.2) acc) k =
      match l.reverse.find? (fun kv => f kv.1 == k) with
      | some kv => some kv.2
      | none => dlookup acc k := by
  induction l generalizing acc with
  | nil => simp
  | cons kv l ih =>
    rw [List.foldl_cons, List.reverse_cons, List.find?_append, ih]
    cases hf : l.reverse.find? (fun kv => f kv.1 == k) with
    | some kv' => simp
    | none =>
      simp only [Option.none_or]
      by_cases hk : f kv.1 = k
      · subst hk
        simp [List.find?, dlookup_dinsert_self]
      · have : ((fun kv' : String × JsonVal => f kv'.1 == k) kv) = false := by
          simp [hk]
        simp only [List.find?_singleton, this, if_false, cond_false]
        exact dlookup_dinsert_other acc (f kv.1) k kv.2 (Ne.symm hk)

/-! ### Case lemmas for the mutators -/

theorem add_task_eq (fs : FS) (path : String) (d : PyDict JsonVal)
    (name : String) :
    add_task fs path d name =
      if validate_str (pyLower name) && !(hasKey d (pyLower name)) then
        ⟨dinsert d (pyLower name) (.jbool false),
         dump_tasks fs path (dinsert d (pyLower name) (.jbool false)), none,
         ["Task was added."]⟩
      else ⟨d, fs, none, ["Task already exists."]⟩ := by
  simp only [add_task]
  rw [pyLower_idem]

theorem add_task_success (fs : FS) (path : String) (d : PyDict JsonVal)
    (name : String) (hv : validate_str (pyLower name) = true)
    (hk : dlookup d (pyLower name) = none) :
    add_task fs path d name =
      ⟨dinsert d (pyLower name) (.jbool false),
       dump_tasks fs path (dinsert d (pyLower name) (.jbool false)), none,
       ["Task was added."]⟩ := by
  rw [add_task_eq, hv, (hasKey_false_iff _ _).mpr hk]
  rfl

theorem add_task_reject (fs : FS) (path : String) (d : PyDict JsonVal)
    (name : String)
    (h : validate_str (pyLower name) = false ∨ hasKey d (pyLower name) = true) :
    add_task fs path d name = ⟨d, fs, none, ["Task already exists."]⟩ := by
  rw [add_task_eq]
  rcases h with hf | ht
  · rw [hf]
    rfl
  · rw [ht]
    cases validate_str (pyLower name) <;> rfl

theorem remove_task_invalid (fs : FS) (path : String) (d : PyDict JsonVal)
    (name : String) (hf : validate_str name = false) :
    remove_task fs path d name = ⟨d, fs, some .typeError, []⟩ := by
  simp [remove_task, hf]

theorem remove_task_present (fs : FS) (path : String) (d : PyDict JsonVal)
    (name : String) (v : JsonVal) (hv : validate_str name = true)
    (hk : dlookup d (pyLower name) = some v) :
    remove_task fs path d name =
      ⟨dremove d (pyLower name),
       dump_tasks fs path (dremove d (pyLower name)), none,
       ["Task removed."]⟩ := by
  have hlen := dremove_length d (pyLower name) v hk
  have hkey : hasKey d (pyLower name) = true := by
    rw [hasKey, hk]
    rfl
  have hne : ¬(d.length = (dremove d (pyLower name)).length) := by omega
  simp [remove_task, hv, hkey, hne]

theorem remove_task_absent (fs : FS) (path : String) (d : PyDict JsonVal)
    (name : String) (hv : validate_str name = true)
    (hk : dlookup d (pyLower name) = none) :
    remove_task fs path d name = ⟨d, fs, some .valueError, []⟩ := by
  have hkey : hasKey d (pyLower name) = false := (hasKey_false_iff _ _).mpr hk
  simp [remove_task, hv, hkey]

theorem change_complete_invalid (fs : FS) (path : String) (d : PyDict JsonVal)
    (name : String) (hf : validate_str name = false) :
    change_complete fs path d name = ⟨d, fs, some .typeError, []⟩ := by
  simp [change_complete, hf]

theorem change_complete_present (fs : FS) (path : String) (d : PyDict JsonVal)
    (name : String) (v : JsonVal) (hv : validate_str name = true)
    (hk : dlookup d (pyLower name) = some v) :
    change_complete fs path d name =
      ⟨dinsert d (pyLower name) (.jbool (!pyTruthy v)),
       dump_tasks fs path (dinsert d (pyLower name) (.jbool (!pyTruthy v))),
       none,
       [if !pyTruthy v then "Task changed to completed."
        else "Task changed to uncompleted."]⟩ := by
  simp [change_complete, hv, hk, pyTruthy]

theorem change_complete_absent (fs : FS) (path : String) (d : PyDict JsonVal)
    (name : String) (hv : validate_str name = true)
    (hk : dlookup d (pyLower name) = none) :
    change_complete fs path d name = ⟨d, fs, some .valueError, []⟩ := by
  simp [change_complete, hv, hk]

/-! ### Claim theorems -/

/-- C8: `validate_input` returns true iff the value is of string type
and is non-empty after trimming leading and trailing whitespace; every
non-string value and every empty or all-whitespace string yields false.
(The embedding is a total pure function, so there are no side effects
and no exceptions by construction.) -/
theorem validate_input_claim (v : PyVal) :
    (validate_input v = true ↔ ∃ s, v = PyVal.str s ∧ pyStrip s ≠ "")
    ∧ ∀ s : String, (pyStrip s = "" ↔ ∀ c ∈ s.data, c.isWhitespace) := by
  constructor
  · cases v with
    | str s =>
      simp only [validate_input, Bool.not_eq_true', beq_eq_false_iff_ne, ne_eq]
      constructor
      · intro h
        exact ⟨s, rfl, h⟩
      · rintro ⟨s', hs, h⟩
        injection hs with hss
        subst hss
        exact h
    | int n => simp [validate_input]
    | boolean b => simp [validate_input]
    | noneVal => simp [validate_input]
  · exact pyStrip_eq_empty_iff

/-- Witness for C8 at concrete inputs: a padded string is accepted, and
the characterization applies to the all-whitespace string. -/
theorem validate_input_claim_witness :
    validate_input (.str " a ") = true ∧ pyStrip "  " = "" := by
  constructor
  · exact (validate_input_claim (.str " a ")).1.mpr ⟨" a ", rfl, by decide⟩
  · exact (validate_input_claim (.str "x")).2 "  " |>.mpr (by decide)

/-- C1: Add Task inserts the lower-cased name mapped to false and
persists exactly when the lower-cased name passes the validator and is
not already a key; in every other case the collection and the file are
left unchanged and the failure is reported with the same "already
exists" message whether the name was invalid or a duplicate. -/
theorem add_task_claim (fs : FS) (path : String) (d : PyDict JsonVal)
    (name : String) :
    (validate_str (pyLower name) = true ∧ dlookup d (pyLower name) = none →
      add_task fs path d name =
        ⟨dinsert d (pyLower name) (.jbool false),
         dump_tasks fs path (dinsert d (pyLower name) (.jbool false)), none,
         ["Task was added."]⟩)
    ∧ (¬(validate_str (pyLower name) = true ∧ dlookup d (pyLower name) = none) →
      add_task fs path d name = ⟨d, fs, none, ["Task already exists."]⟩) := by
  constructor
  · rintro ⟨hv, hk⟩
    exact add_task_success fs path d name hv hk
  · intro h
    apply add_task_reject
    by_cases hv : validate_str (pyLower name) = true
    · right
      rw [hasKey]
      cases hd : dlookup d (pyLower name) with
      | none => exact absurd ⟨hv, hd⟩ h
      | some v => rfl
    · left
      simpa using hv

/-- Witness for C1: a fresh name is inserted lower-cased and persisted;
a name differing only in case from an existing key is rejected with the
"already exists" message and nothing changes. -/
theorem add_task_claim_witness :
    add_task [] "tasks.json" [("x", .jbool true)] "Errand" =
      ⟨[("x", .jbool true), ("errand", .jbool false)],
       [("tasks.json",
         .json (.obj [("x", .jbool true), ("errand", .jbool false)]))],
       none, ["Task was added."]⟩
    ∧ add_task [] "tasks.json" [("buy milk", .jbool false)] "Buy milk" =
      ⟨[("buy milk", .jbool false)], [], none, ["Task already exists."]⟩ := by
  constructor
  · exact (add_task_claim [] "tasks.json" [("x", .jbool true)] "Errand").1
      ⟨rfl, rfl⟩
  · exact (add_task_claim [] "tasks.json" [("buy milk", .jbool false)]
      "Buy milk").2 (fun hc => Option.noConfusion hc.2)

/-- C4: Remove Task fails with the invalid-input signal (TypeError)
before any normalisation when the name fails the validator; otherwise,
with the name lower-cased, a present entry is deleted and persisted
(detected through the before/after length comparison), and an absent
name fails with the not-found signal (ValueError) leaving the
collection and the file untouched. -/
theorem remove_task_claim (fs : FS) (path : String) (d : PyDict JsonVal)
    (name : String) :
    (validate_str name = false →
      remove_task fs path d name = ⟨d, fs, some .typeError, []⟩)
    ∧ (validate_str name = true → ∀ v, dlookup d (pyLower name) = some v →
      remove_task fs path d name =
        ⟨dremove d (pyLower name),
         dump_tasks fs path (dremove d (pyLower name)), none,
         ["Task removed."]⟩)
    ∧ (validate_str name = true → dlookup d (pyLower name) = none →
      remove_task fs path d name = ⟨d, fs, some .valueError, []⟩) :=
  ⟨remove_task_invalid fs path d name,
   fun hv v hk => remove_task_present fs path d name v hv hk,
   remove_task_absent fs path d name⟩

/-- Witness for C4: removing from the empty collection fails not-found
with everything untouched; a present name (up to case) is deleted and
persisted; a whitespace name fails invalid-input. -/
theorem remove_task_claim_witness :
    remove_task [] "tasks.json" [] "errand" = ⟨[], [], some .valueError, []⟩
    ∧ remove_task [] "tasks.json" [("errand", .jbool false)] "Errand" =
      ⟨[], [("tasks.json", .json (.obj []))], none, ["Task removed."]⟩
    ∧ remove_task [] "tasks.json" [] " " = ⟨[], [], some .typeError, []⟩ := by
  refine ⟨?_, ?_, ?_⟩
  · exact (remove_task_claim [] "tasks.json" [] "errand").2.2 rfl rfl
  · exact (remove_task_claim [] "tasks.json" [("errand", .jbool false)]
      "Errand").2.1 rfl (.jbool false) rfl
  · exact (remove_task_claim [] "tasks.json" [] " ").1 rfl

/-- C6 counterexample: with collection `{"chore": false}` and name
`"chore"`, Add Task is rejected as a duplicate (no mutation) but the
following Remove Task deletes the pre-existing entry, so the collection
ends empty instead of equal to its state before the add. -/
theorem add_then_remove_cex :
    (remove_task (add_task [] "tasks.json" [("chore", .jbool false)] "chore").fs
        "tasks.json"
        (add_task [] "tasks.json" [("chore", .jbool false)] "chore").tasks
        "chore").tasks = []
    ∧ ([] : PyDict JsonVal) ≠ [("chore", .jbool false)] := by
  constructor
  · rfl
  · simp

/-- C6 (amended): Add Task followed by Remove Task with the same raw
name restores the collection to its state before the add whenever the
name is invalid or its lower-casing is not already a key; when the name
is already present the remove deletes the pre-existing entry instead. -/
theorem add_then_remove_claim (fs : FS) (path : String) (d : PyDict JsonVal)
    (name : String)
    (h : validate_str name = false ∨ dlookup d (pyLower name) = none) :
    (remove_task (add_task fs path d name).fs path
      (add_task fs path d name).tasks name).tasks = d := by
  by_cases hv : validate_str name = true
  · rcases h with hf | hnone
    · exact absurd hf (by simp [hv])
    · have hvl : validate_str (pyLower name) = true := by
        rw [validate_str_pyLower]
        exact hv
      rw [add_task_success fs path d name hvl hnone]
      show (remove_task
        (dump_tasks fs path (dinsert d (pyLower name) (.jbool false))) path
        (dinsert d (pyLower name) (.jbool false)) name).tasks = d
      have hlook : dlookup (dinsert d (pyLower name) (.jbool false))
          (pyLower name) = some (.jbool false) := dlookup_dinsert_self _ _ _
      rw [remove_task_present _ _ _ _ (.jbool false) hv hlook]
      show dremove (dinsert d (pyLower name) (.jbool false)) (pyLower name) = d
      rw [dinsert_of_not_mem d _ _ hnone]
      exact dremove_append_singleton d _ _ hnone
  · have hf : validate_str name = false := by simpa using hv
    have hfl : validate_str (pyLower name) = false := by
      rw [validate_str_pyLower]
      exact hf
    rw [add_task_reject fs path d name (Or.inl hfl)]
    show (remove_task fs path d name).tasks = d
    rw [remove_task_invalid fs path d name hf]

/-- Witness for C6 (amended) at a fresh name: adding and then removing
`"Chore"` on the empty collection restores the empty collection. -/
theorem add_then_remove_claim_witness :
    (remove_task (add_task [] "tasks.json" [] "Chore").fs "tasks.json"
      (add_task [] "tasks.json" [] "Chore").tasks "Chore").tasks = [] :=
  add_then_remove_claim [] "tasks.json" [] "Chore" (Or.inr rfl)

/-- C7: for a valid name whose lower-casing is a key holding boolean
status `b`, Toggle Completion flips the status to `!b`, reports
completed exactly when the new status is true, and a second application
returns the collection (hence the status of that task) to its original
value. -/
theorem change_complete_claim (fs : FS) (path : String) (d : PyDict JsonVal)
    (name : String) (b : Bool) (hv : validate_str name = true)
    (hk : dlookup d (pyLower name) = some (.jbool b)) :
    dlookup (change_complete fs path d name).tasks (pyLower name) =
      some (.jbool (!b))
    ∧ ((change_complete fs path d name).msgs =
        ["Task changed to completed."] ↔ b = false)
    ∧ (change_complete (change_complete fs path d name).fs path
        (change_complete fs path d name).tasks name).tasks = d := by
  have h1 := change_complete_present fs path d name (.jbool b) hv hk
  rw [h1]
  refine ⟨?_, ?_, ?_⟩
  · show dlookup (dinsert d (pyLower name) (.jbool (!b))) (pyLower name) =
      some (.jbool (!b))
    exact dlookup_dinsert_self _ _ _
  · show [if !b then "Task changed to completed."
        else "Task changed to uncompleted."] =
      ["Task changed to completed."] ↔ b = false
    cases b <;> simp
  · show (change_complete
        (dump_tasks fs path (dinsert d (pyLower name) (.jbool (!b)))) path
        (dinsert d (pyLower name) (.jbool (!b))) name).tasks = d
    have h2 := change_complete_present
      (dump_tasks fs path (dinsert d (pyLower name) (.jbool (!b)))) path
      (dinsert d (pyLower name) (.jbool (!b))) name (.jbool (!b)) hv
      (dlookup_dinsert_self _ _ _)
    rw [h2]
    show dinsert (dinsert d (pyLower name) (.jbool (!b))) (pyLower name)
      (.jbool (!(!b))) = d
    rw [dinsert_dinsert, Bool.not_not]
    exact dinsert_lookup_self d _ _ hk

/-- Witness for C7: toggling `"Write Report"` on
`{"write report": false}` marks it completed, and toggling twice
restores the original collection. -/
theorem change_complete_claim_witness :
    dlookup (change_complete [] "t" [("write report", .jbool false)]
      "Write Report").tasks "write report" = some (.jbool true)
    ∧ ((change_complete [] "t" [("write report", .jbool false)]
        "Write Report").msgs = ["Task changed to completed."] ↔ false = false)
    ∧ (change_complete
        (change_complete [] "t" [("write report", .jbool false)]
          "Write Report").fs "t"
        (change_complete [] "t" [("write report", .jbool false)]
          "Write Report").tasks "Write Report").tasks =
      [("write report", .jbool false)] :=
  change_complete_claim [] "t" [("write report", .jbool false)]
    "Write Report" false rfl rfl

/-- Auxiliary fact: the identity-key insertion fold of `json.load`
leaves a dict with distinct keys unchanged. -/
theorem jsonDictOf_eq_self (l : List (String × JsonVal))
    (h : (l.map Prod.fst).Nodup) : jsonDictOf l = l := by
  have hnd : (l.map (fun kv => (fun k : String => k) kv.1)).Nodup := h
  have h2 := foldl_dinsert_eq_append (fun k => k) l [] hnd
    (fun kv _ => rfl)
  have hmapid : l.map (fun kv => ((fun k : String => k) kv.1, kv.2)) = l := by
    have hid : ∀ kv : String × JsonVal,
        ((fun k : String => k) kv.1, kv.2) = id kv := fun kv => rfl
    rw [List.map_congr_left (fun a _ => hid a), List.map_id]
  calc jsonDictOf l
      = [] ++ l.map (fun kv => ((fun k : String => k) kv.1, kv.2)) := h2
    _ = l := by rw [List.nil_append, hmapid]

/-- C2: dumping a boolean-valued collection and loading it back from
the same path succeeds and yields exactly the collection with every key
lower-cased, where (as the lookup characterisation states) the value of
a key is the status of the last original entry whose lower-cased name
is that key — later entries overwrite earlier ones on collision. -/
theorem dump_load_roundtrip_claim (fs : FS) (path : String)
    (ts : List (String × Bool)) (h : (ts.map Prod.fst).Nodup) :
    load_tasks (dump_tasks fs path (ofBools ts)) path =
      .ok (lowerDict (ofBools ts))
    ∧ ∀ k, dlookup (lowerDict (ofBools ts)) k =
        (ts.reverse.find? (fun kv => pyLower kv.1 == k)).map
          (fun kv => JsonVal.jbool kv.2) := by
  constructor
  · have hload : load_tasks (dump_tasks fs path (ofBools ts)) path =
        comprehend (.obj (ofBools ts)) := by
      unfold load_tasks dump_tasks
      rw [dlookup_dinsert_self]
    rw [hload]
    show Except.ok (lowerDict (jsonDictOf (ofBools ts))) = _
    have hkeys : (ofBools ts).map Prod.fst = ts.map Prod.fst := by
      simp [ofBools]
    rw [jsonDictOf_eq_self (ofBools ts) (by rw [hkeys]; exact h)]
  · intro k
    have h4 := dlookup_foldl_dinsert pyLower (ofBools ts) [] k
    have hrev : (ofBools ts).reverse = ofBools ts.reverse := by
      simp [ofBools]
    rw [hrev] at h4
    have h5 : (ofBools ts.reverse).find? (fun kv => pyLower kv.1 == k) =
        (ts.reverse.find? (fun kv => pyLower kv.1 == k)).map
          (fun kv => (kv.1, JsonVal.jbool kv.2)) := by
      unfold ofBools
      rw [List.find?_map]
      rfl
    rw [h5] at h4
    show dlookup (lowerDict (ofBools ts)) k = _
    rw [show lowerDict (ofBools ts) =
      (ofBools ts).foldl (fun a kv => dinsert a (pyLower kv.1) kv.2) [] from rfl]
    rw [h4]
    cases ts.reverse.find? (fun kv => pyLower kv.1 == k) with
    | none => rfl
    | some kv => rfl

/-- Witness for C2: dumping `{"Buy Milk": false, "A": true}` and
loading it back yields `{"buy milk": false, "a": true}`. -/
theorem dump_load_roundtrip_claim_witness :
    load_tasks (dump_tasks [] "t" (ofBools [("Buy Milk", false), ("A", true)]))
      "t" = .ok [("buy milk", .jbool false), ("a", .jbool true)]
    ∧ dlookup (lowerDict (ofBools [("Buy Milk", false), ("A", true)]))
      "buy milk" = some (.jbool false) := by
  have h := dump_load_roundtrip_claim [] "t" [("Buy Milk", false), ("A", true)]
    (by decide)
  exact ⟨h.1, h.2 "buy milk"⟩

/-- Auxiliary fact: the only errors the key-lowering comprehension of
`load_tasks` can raise are TypeError and AttributeError — never the
load-taxonomy conditions. -/
theorem comprehend_error (v : JsonVal) (e : PyErr)
    (h : comprehend v = .error e) :
    e = .typeError ∨ e = .attributeError := by
  cases v with
  | null =>
    injection h with he
    exact Or.inl he.symm
  | jbool b =>
    injection h with he
    exact Or.inl he.symm
  | num n =>
    injection h with he
    exact Or.inl he.symm
  | jstr s =>
    by_cases hs : s.data.isEmpty
    · rw [show comprehend (.jstr s) =
        (if s.data.isEmpty then .ok [] else .error .typeError) from rfl,
        if_pos hs] at h
      exact Except.noConfusion h
    · rw [show comprehend (.jstr s) =
        (if s.data.isEmpty then .ok [] else .error .typeError) from rfl,
        if_neg hs] at h
      injection h with he
      exact Or.inl he.symm
  | arr xs =>
    cases xs with
    | nil => exact Except.noConfusion h
    | cons x t =>
      cases x <;> injection h with he <;>
        first
          | exact Or.inl he.symm
          | exact Or.inr he.symm
  | obj kvs => exact Except.noConfusion h

/-- C5 counterexample: a backing file holding the JSON object
`{"a": 1}` does not conform to the string-to-boolean shape, yet load
succeeds on it — the value shape is never checked. -/
theorem load_shape_cex :
    load_tasks [("tasks.json", .json (.obj [("a", .num 1)]))] "tasks.json" =
      .ok [("a", .num 1)] := rfl

/-- C5 (amended): load fails with the file-not-found condition exactly
when the path is absent and with the malformed-data condition exactly
when the content is not valid JSON; however the persisted-state shape
is not enforced: every JSON object loads successfully whatever its
value types, and a JSON value that is not an object fails (when it
does) with TypeError or AttributeError, outside the load taxonomy. -/
theorem load_tasks_claim (fs : FS) (path : String) :
    (load_tasks fs path = .error .fileNotFound ↔ dlookup fs path = none)
    ∧ (load_tasks fs path = .error .jsonDecodeError ↔
        dlookup fs path = some .invalid)
    ∧ (∀ kvs, dlookup fs path = some (.json (.obj kvs)) →
        load_tasks fs path = .ok (lowerDict (jsonDictOf kvs)))
    ∧ (∀ v e, dlookup fs path = some (.json v) →
        load_tasks fs path = .error e →
        e = .typeError ∨ e = .attributeError) := by
  refine ⟨?_, ?_, ?_, ?_⟩
  · cases hd : dlookup fs path with
    | none => simp [load_tasks, hd]
    | some fsv =>
      cases fsv with
      | invalid => simp [load_tasks, hd]
      | json v =>
        simp only [load_tasks, hd]
        constructor
        · intro hc
          rcases comprehend_error v _ hc with h1 | h1 <;> exact absurd h1 (by decide)
        · intro hc
          exact absurd hc (by simp)
  · cases hd : dlookup fs path with
    | none => simp [load_tasks, hd]
    | some fsv =>
      cases fsv with
      | invalid => simp [load_tasks, hd]
      | json v =>
        simp only [load_tasks, hd]
        constructor
        · intro hc
          rcases comprehend_error v _ hc with h1 | h1 <;> exact absurd h1 (by decide)
        · intro hc
          exact absurd hc (by simp)
  · intro kvs hd
    simp [load_tasks, hd, comprehend]
  · intro v e hd he
    simp only [load_tasks, hd] at he
    exact comprehend_error v e he

/-- Witness for C5 (amended) at concrete file states: a missing path,
an invalid file, an object with non-boolean values, and a non-object
JSON value. -/
theorem load_tasks_claim_witness :
    load_tasks [] "t" = .error .fileNotFound
    ∧ load_tasks [("t", .invalid)] "t" = .error .jsonDecodeError
    ∧ load_tasks [("t", .json (.obj [("A", .jbool true)]))] "t" =
        .ok [("a", .jbool true)]
    ∧ (PyErr.typeError = .typeError ∨ PyErr.typeError = .attributeError) := by
  refine ⟨?_, ?_, ?_, ?_⟩
  · exact (load_tasks_claim [] "t").1.mpr rfl
  · exact (load_tasks_claim [("t", .invalid)] "t").2.1.mpr rfl
  · exact (load_tasks_claim [("t", .json (.obj [("A", .jbool true)]))]
      "t").2.2.1 [("A", .jbool true)] rfl
  · exact (load_tasks_claim [("t", .json (.num 3))] "t").2.2.2 (.num 3)
      .typeError rfl rfl

/-- Auxiliary fact: the key-lowering comprehension always produces a
dict with lower-cased, distinct keys, whatever it is fed. -/
theorem lowerDict_keysGood (l : PyDict JsonVal) : KeysGood (lowerDict l) := by
  constructor
  · exact foldl_dinsert_keys (fun k => pyLower k = k) pyLower l []
      (fun k hk => absurd hk (by simp [keysOf]))
      (fun kv _ => pyLower_idem kv.1)
  · exact foldl_dinsert_nodup pyLower l [] (by simp [keysOf])

/-- Auxiliary fact: the empty dict satisfies the key invariant. -/
theorem keysGood_nil : KeysGood [] :=
  ⟨fun k hk => absurd hk (by simp [keysOf]), by simp [keysOf]⟩

/-- Auxiliary fact: whenever the comprehension of `load_tasks`
succeeds, its result satisfies the key invariant. -/
theorem comprehend_keysGood (v : JsonVal) (d : PyDict JsonVal)
    (h : comprehend v = .ok d) : KeysGood d := by
  cases v with
  | null => exact Except.noConfusion h
  | jbool b => exact Except.noConfusion h
  | num n => exact Except.noConfusion h
  | jstr s =>
    by_cases hs : s.data.isEmpty
    · rw [show comprehend (.jstr s) =
        (if s.data.isEmpty then .ok [] else .error .typeError) from rfl,
        if_pos hs] at h
      injection h with hd
      rw [← hd]
      exact keysGood_nil
    · rw [show comprehend (.jstr s) =
        (if s.data.isEmpty then .ok [] else .error .typeError) from rfl,
        if_neg hs] at h
      exact Except.noConfusion h
  | arr xs =>
    cases xs with
    | nil =>
      injection h with hd
      rw [← hd]
      exact keysGood_nil
    | cons x t => cases x <;> exact Except.noConfusion h
  | obj kvs =>
    injection h with hd
    rw [← hd]
    exact lowerDict_keysGood _

/-- C9 counterexample: a backing file with an all-whitespace key loads
successfully, so a collection produced by load can hold a key that is
empty after trimming — load does not enforce that part of the claimed
invariant. -/
theorem load_blank_key_cex :
    load_tasks [("tasks.json", .json (.obj [(" ", .jbool true)]))]
      "tasks.json" = .ok [(" ", .jbool true)]
    ∧ validate_input (.str " ") = false := ⟨rfl, rfl⟩

/-- C9 (amended): every collection produced by load has lower-cased,
pairwise-distinct keys, and every mutator preserves that invariant (add
only ever inserts its lower-cased name); non-emptiness of keys after
trimming, however, is not established by load. -/
theorem key_invariant_claim :
    (∀ fs path d, load_tasks fs path = .ok d → KeysGood d)
    ∧ (∀ fs path d name, KeysGood d →
        KeysGood (add_task fs path d name).tasks)
    ∧ (∀ fs path d name, KeysGood d →
        KeysGood (remove_task fs path d name).tasks)
    ∧ (∀ fs path d name, KeysGood d →
        KeysGood (change_complete fs path d name).tasks) := by
  refine ⟨?_, ?_, ?_, ?_⟩
  · intro fs path d h
    unfold load_tasks at h
    cases hd : dlookup fs path with
    | none =>
      rw [hd] at h
      exact Except.noConfusion h
    | some fsv =>
      rw [hd] at h
      cases fsv with
      | invalid => exact Except.noConfusion h
      | json v => exact comprehend_keysGood v d h
  · intro fs path d name hg
    rw [add_task_eq]
    cases hc : (validate_str (pyLower name) && !(hasKey d (pyLower name))) with
    | false => exact hg
    | true =>
      have hh := Bool.and_eq_true_iff.mp hc
      have hkf : hasKey d (pyLower name) = false := by simpa using hh.2
      show KeysGood (dinsert d (pyLower name) (.jbool false))
      constructor
      · intro k hk
        rw [keysOf_dinsert_not_mem d _ _ hkf] at hk
        rcases List.mem_append.mp hk with h1 | h2
        · exact hg.1 k h1
        · rw [List.mem_singleton] at h2
          subst h2
          exact pyLower_idem name
      · rw [keysOf_dinsert_not_mem d _ _ hkf, List.nodup_append]
        refine ⟨hg.2, List.nodup_singleton _, ?_⟩
        intro a ha hb
        rw [List.mem_singleton] at hb
        subst hb
        exact absurd ((hasKey_iff_mem_keysOf d _).mpr ha) (by simp [hkf])
  · intro fs path d name hg
    by_cases hv : validate_str name = true
    · cases hd : dlookup d (pyLower name) with
      | some v =>
        rw [remove_task_present fs path d name v hv hd]
        show KeysGood (dremove d (pyLower name))
        have hsub := dremove_sublist d (pyLower name)
        constructor
        · intro k hk
          exact hg.1 k ((hsub.map Prod.fst).subset hk)
        · exact hg.2.sublist (hsub.map Prod.fst)
      | none =>
        rw [remove_task_absent fs path d name hv hd]
        exact hg
    · have hf : validate_str name = false := by simpa using hv
      rw [remove_task_invalid fs path d name hf]
      exact hg
  · intro fs path d name hg
    by_cases hv : validate_str name = true
    · cases hd : dlookup d (pyLower name) with
      | some v =>
        rw [change_complete_present fs path d name v hv hd]
        show KeysGood (dinsert d (pyLower name) (.jbool (!pyTruthy v)))
        have hkm : hasKey d (pyLower name) = true := by
          rw [hasKey, hd]
          rfl
        constructor
        · intro k hk
          rw [keysOf_dinsert_mem d _ _ hkm] at hk
          exact hg.1 k hk
        · rw [keysOf_dinsert_mem d _ _ hkm]
          exact hg.2
      | none =>
        rw [change_complete_absent fs path d name hv hd]
        exact hg
    · have hf : validate_str name = false := by simpa using hv
      rw [change_complete_invalid fs path d name hf]
      exact hg

/-- Witness for C9 (amended): a loaded singleton collection satisfies
the key invariant and still does after an add. -/
theorem key_invariant_claim_witness :
    KeysGood [("a", .jbool true)]
    ∧ KeysGood (add_task [] "t" [("a", .jbool true)] "B").tasks := by
  have hg := key_invariant_claim.1
    [("t", .json (.obj [("A", .jbool true)]))] "t" [("a", .jbool true)] rfl
  exact ⟨hg, key_invariant_claim.2.1 [] "t" [("a", .jbool true)] "B" hg⟩

/-- Auxiliary fact: a dispatched mutator call always lets the loop
continue — a raised exception is recovered, never propagated out. -/
theorem mutStep_more (r : MutOut) (path : String) (rest : List String) :
    ∃ fs2 m, mutStep r path rest = .more fs2 rest m := by
  cases he : r.err with
  | none => exact ⟨r.fs, r.msgs, by simp [mutStep, he]⟩
  | some e =>
    exact ⟨(recover e r.fs path).1, r.msgs ++ (recover e r.fs path).2,
      by simp [mutStep, he]⟩

/-- Auxiliary fact: a dispatched mutator call never terminates the
loop. -/
theorem mutStep_ne_done (r : MutOut) (path : String) (rest : List String)
    (fs' : FS) (r' m : List String) : mutStep r path rest ≠ .done fs' r' m := by
  cases he : r.err <;> simp [mutStep, he]

/-- C3: every error condition of a cycle — a load failure
(file-not-found, malformed-data or a shape error) before any input is
read, or a mutator failure (invalid-input, not-found) during the `c`,
`a` or `r` commands — is caught and converted into a recovery step that
restarts the loop; the only transition to the terminated state is an
input whose lower-casing is `"e"` followed by a confirmation whose
lower-casing is `"y"`. -/
theorem run_loop_claim (path : String) (fs : FS) (inputs : List String) :
    (∀ e, load_tasks fs path = .error e →
      step path fs inputs =
        .more (recover e fs path).1 inputs (recover e fs path).2)
    ∧ (∀ fs' rest m, step path fs inputs = .done fs' rest m →
      ∃ a c r', inputs = a :: c :: r' ∧ pyLower a = "e" ∧ pyLower c = "y"
        ∧ fs' = fs ∧ rest = r' ∧ m = [])
    ∧ (∀ tasks name r2, load_tasks fs path = .ok tasks →
        inputs = "c" :: name :: r2 →
        ∃ fs2 m, step path fs inputs = .more fs2 r2 m)
    ∧ (∀ tasks name r2, load_tasks fs path = .ok tasks →
        inputs = "a" :: name :: r2 →
        ∃ fs2 m, step path fs inputs = .more fs2 r2 m)
    ∧ (∀ tasks name sure r3, load_tasks fs path = .ok tasks →
        inputs = "r" :: name :: sure :: r3 →
        ∃ fs2 m, step path fs inputs = .more fs2 r3 m) := by
  refine ⟨?_, ?_, ?_, ?_, ?_⟩
  · intro e he
    simp only [step]
    rw [he]
  · intro fs' rest m hstep
    cases hload : load_tasks fs path with
    | error e =>
      simp only [step, hload] at hstep
      exact StepRes.noConfusion hstep
    | ok tasks =>
      cases inputs with
      | nil =>
        simp only [step, hload] at hstep
        exact StepRes.noConfusion hstep
      | cons a rest0 =>
        simp only [step, hload] at hstep
        by_cases h1 : pyLower a = "l"
        · rw [if_pos h1] at hstep
          exact StepRes.noConfusion hstep
        · rw [if_neg h1] at hstep
          by_cases h2 : pyLower a = "c"
          · rw [if_pos h2] at hstep
            cases rest0 with
            | nil => exact StepRes.noConfusion hstep
            | cons nm r2 => exact absurd hstep (mutStep_ne_done _ _ _ _ _ _)
          · rw [if_neg h2] at hstep
            by_cases h3 : pyLower a = "a"
            · rw [if_pos h3] at hstep
              cases rest0 with
              | nil => exact StepRes.noConfusion hstep
              | cons nm r2 => exact absurd hstep (mutStep_ne_done _ _ _ _ _ _)
            · rw [if_neg h3] at hstep
              by_cases h4 : pyLower a = "r"
              · rw [if_pos h4] at hstep
                cases rest0 with
                | nil => exact StepRes.noConfusion hstep
                | cons nm r2 =>
                  cases r2 with
                  | nil => exact StepRes.noConfusion hstep
                  | cons sure r3 =>
                    replace hstep : (if pyLower sure = "y" then
                        mutStep (remove_task fs path tasks nm) path r3
                      else StepRes.more fs r3 []) =
                        StepRes.done fs' rest m := hstep
                    by_cases h5 : pyLower sure = "y"
                    · rw [if_pos h5] at hstep
                      exact absurd hstep (mutStep_ne_done _ _ _ _ _ _)
                    · rw [if_neg h5] at hstep
                      exact StepRes.noConfusion hstep
              · rw [if_neg h4] at hstep
                by_cases h6 : pyLower a = "e"
                · rw [if_pos h6] at hstep
                  cases rest0 with
                  | nil => exact StepRes.noConfusion hstep
                  | cons conf r2 =>
                    replace hstep : (if pyLower conf = "y" then
                        StepRes.done fs r2 []
                      else StepRes.more fs r2 []) =
                        StepRes.done fs' rest m := hstep
                    by_cases h7 : pyLower conf = "y"
                    · rw [if_pos h7] at hstep
                      injection hstep with e1 e2 e3
                      exact ⟨a, conf, r2, rfl, h6, h7, e1.symm, e2.symm,
                        e3.symm⟩
                    · rw [if_neg h7] at hstep
                      exact StepRes.noConfusion hstep
                · rw [if_neg h6] at hstep
                  exact StepRes.noConfusion hstep
  · intro tasks nm r2 hl heq
    subst heq
    obtain ⟨fs2, m, hm⟩ := mutStep_more (change_complete fs path tasks nm)
      path r2
    refine ⟨fs2, m, ?_⟩
    simp only [step]
    rw [hl]
    exact hm
  · intro tasks nm r2 hl heq
    subst heq
    obtain ⟨fs2, m, hm⟩ := mutStep_more (add_task fs path tasks nm) path r2
    refine ⟨fs2, m, ?_⟩
    simp only [step]
    rw [hl]
    exact hm
  · intro tasks nm sure r3 hl heq
    subst heq
    by_cases hy : pyLower sure = "y"
    · obtain ⟨fs2, m, hm⟩ := mutStep_more (remove_task fs path tasks nm)
        path r3
      refine ⟨fs2, m, ?_⟩
      simp only [step]
      rw [hl]
      show (if pyLower sure = "y" then
          mutStep (remove_task fs path tasks nm) path r3
        else .more fs r3 []) = .more fs2 r3 m
      rw [if_pos hy]
      exact hm
    · refine ⟨fs, [], ?_⟩
      simp only [step]
      rw [hl]
      show (if pyLower sure = "y" then
          mutStep (remove_task fs path tasks nm) path r3
        else .more fs r3 []) = .more fs r3 []
      rw [if_neg hy]

/-- Witness for C3: a missing file is recovered into a restart, and the
`"e"`/`"y"` input pair is what a termination decomposes into. -/
theorem run_loop_claim_witness :
    step "t" [] ["l"] = .more (dump_tasks [] "t" []) ["l"]
        ["New tasks file was created. Try again."]
    ∧ ∃ a c r', (["e", "y"] : List String) = a :: c :: r'
        ∧ pyLower a = "e" ∧ pyLower c = "y" := by
  constructor
  · exact (run_loop_claim "t" [] ["l"]).1 .fileNotFound rfl
  · obtain ⟨a, c, r', h1, h2, h3, _⟩ :=
      (run_loop_claim "t" [("t", .json (.obj []))] ["e", "y"]).2.1
        [("t", .json (.obj []))] [] [] rfl
    exact ⟨a, c, r', h1, h2, h3⟩

/-- C10: the menu letter and the yes/no confirmation answers are
lower-cased before comparison, so a cycle behaves identically on an
input and on its lower-casing (upper-case menu letters dispatch like
their lower-case forms), and an upper-case Y is accepted as the affirmative
confirmation for end. -/
theorem run_case_insensitive_claim (path : String) (fs : FS) :
    (∀ tasks a rest, load_tasks fs path = .ok tasks →
      step path fs (a :: rest) = step path fs (pyLower a :: rest))
    ∧ (∀ tasks name sure r3, load_tasks fs path = .ok tasks →
      step path fs ("r" :: name :: sure :: r3) =
        step path fs ("r" :: name :: pyLower sure :: r3))
    ∧ (∀ tasks conf r2, load_tasks fs path = .ok tasks →
      step path fs ("e" :: conf :: r2) =
        step path fs ("e" :: pyLower conf :: r2))
    ∧ (∀ tasks rest, load_tasks fs path = .ok tasks →
      step path fs ("e" :: "Y" :: rest) = .done fs rest []) := by
  refine ⟨?_, ?_, ?_, ?_⟩
  · intro tasks a rest hl
    simp only [step, hl]
    rw [pyLower_idem]
  · intro tasks nm sure r3 hl
    have hred : ∀ s : String, step path fs ("r" :: nm :: s :: r3) =
        (if pyLower s = "y" then
          mutStep (remove_task fs path tasks nm) path r3
        else .more fs r3 []) := by
      intro s
      simp only [step]
      rw [hl]
      rfl
    rw [hred sure, hred (pyLower sure), pyLower_idem]
  · intro tasks conf r2 hl
    have hred : ∀ s : String, step path fs ("e" :: s :: r2) =
        (if pyLower s = "y" then .done fs r2 [] else .more fs r2 []) := by
      intro s
      simp only [step]
      rw [hl]
      rfl
    rw [hred conf, hred (pyLower conf), pyLower_idem]
  · intro tasks rest hl
    simp only [step]
    rw [hl]
    rfl

/-- Witness for C10: with an empty store, an upper-case L cycles
exactly like a lower-case one, and an upper-case Y confirms the end
command. -/
theorem run_case_insensitive_claim_witness :
    step "t" [("t", .json (.obj []))] ["L"] =
      step "t" [("t", .json (.obj []))] ["l"]
    ∧ step "t" [("t", .json (.obj []))] ["e", "Y"] =
      .done [("t", .json (.obj []))] [] [] := by
  constructor
  · exact (run_case_insensitive_claim "t" [("t", .json (.obj []))]).1
      [] "L" [] rfl
  · exact (run_case_insensitive_claim "t" [("t", .json (.obj []))]).2.2.2
      [] [] rfl

end TaskManager
